import Mathlib

/-!
Verification of the deterministic data-preparation core of the
`tensorflow-rnn-tutorial` notebook (`00_RNN_predictions_estimator_solution.ipynb`):
synthetic waveform corpus generation, the windowing/labelling transform
(`np.roll` + `np.reshape`), the evaluation-subset sampling
(`np.random.choice` without replacement over joined (input, label) window
pairs), and the batching of the evaluation set.

Sequences are modelled as Lean lists; the sample values are opaque (the
claims about the windowing transform are value-generic), so the transform
definitions are polymorphic in the element type.
-/

namespace RNNTutorial

/-- `np.roll(data, -1)`: rotate the sequence left by one position
(`labeldata = np.roll(data, -1)` in the notebook). -/
def npRoll1 (data : List α) : List α := data.drop 1 ++ data.take 1

/-- `np.reshape(xs, [-1, L])` in row-major order: window `w` is
`xs[w*L : w*L + L]`, and there are `xs.length / L` full windows. -/
def npReshape (L : Nat) (xs : List α) : List (List α) :=
  (List.range (xs.length / L)).map (fun w => (xs.drop (w * L)).take L)

/-- `traindata = np.reshape(data, [-1, SEQLEN])`: the input windows. -/
def traindata (L : Nat) (data : List α) : List (List α) := npReshape L data

/-- `labeldata = np.reshape(np.roll(data, -1), [-1, SEQLEN])`: the label
windows, obtained by rotating the sequence left by one and reshaping. -/
def labeldata (L : Nat) (data : List α) : List (List α) :=
  npReshape L (npRoll1 data)

/-- `joined_data = np.stack([traindata, labeldata], axis=1)`: the list of
(input window, label window) pairs, in window order. -/
def joined_data (L : Nat) (data : List α) : List (List α × List α) :=
  List.zip (traindata L data) (labeldata L data)

/-- NumPy fancy indexing `xs[idxs]`: pick out the rows at the given indices
(out-of-range indices, which NumPy would reject, yield the empty pair). -/
def npSelect (xs : List (List α × List α)) (idxs : List Nat) :
    List (List α × List α) :=
  idxs.map (fun i => xs.getD i ([], []))

/-- `np.random.choice(n, K, replace=False)` draws `K` distinct indices by
taking a prefix of a random permutation of `0, ..., n-1`.  The randomness is
abstracted as the permutation `p` itself (a hypothesis `p.Perm (List.range n)`
in the theorems); the draw is its first `K` entries. -/
def npChoice (p : List Nat) (K : Nat) : List Nat := p.take K

/-- `joined_evaldata = joined_data[np.random.choice(..., EVAL_SEQUENCES,
replace=False)]`: the sampled evaluation (input, label) window pairs. -/
def joined_evaldata (L K : Nat) (data : List α) (p : List Nat) :
    List (List α × List α) :=
  npSelect (joined_data L data) (npChoice p K)

/-- `evaldata = joined_evaldata[:,0,:]`: the evaluation input windows. -/
def evaldata (L K : Nat) (data : List α) (p : List Nat) : List (List α) :=
  (joined_evaldata L K data p).map Prod.fst

/-- `evallabels = joined_evaldata[:,1,:]`: the evaluation label windows. -/
def evallabels (L K : Nat) (data : List α) (p : List Nat) : List (List α) :=
  (joined_evaldata L K data p).map Prod.snd

/-- Element access into a list of windows: element `i` of window `w`,
with default `d` out of range. -/
def windowElem (ws : List (List α)) (w i : Nat) (d : α) : α :=
  (ws.getD w []).getD i d

/-- The result of the eager data-preparation phase of the notebook:
the training input windows, the training label windows, and the sampled
evaluation (input, label) window pairs. -/
structure Prepared (α : Type _) where
  traind : List (List α)
  labeld : List (List α)
  evald : List (List α × List α)

/-- The data-preparation cell of the notebook: build `traindata`,
`labeldata` and `joined_evaldata` from the flat sequence.  The training
pool fields are computed before (and independently of) the evaluation
sampling. -/
def prepare (L K : Nat) (data : List α) (p : List Nat) : Prepared α :=
  { traind := traindata L data
    labeld := labeldata L data
    evald := joined_evaldata L K data p }

/-- The two setup-time failures of the data-preparation code:
`np.reshape(data, [-1, L])` rejects a sequence length not divisible by
`L`, and `np.random.choice(n, K, replace=False)` rejects `K > n`. -/
inductive SetupError where
  | reshapeMismatch : SetupError
  | sampleTooLarge : SetupError
deriving DecidableEq

/-- The data-preparation phase with its NumPy-level failure conditions made
explicit: `np.reshape` raises unless `data.length % L == 0`, and
`np.random.choice(n, K, replace=False)` raises unless `K ≤ n` where
`n = data.length / L` is the number of windows. -/
def prepareChecked (L K : Nat) (data : List α) (p : List Nat) :
    Except SetupError (Prepared α) :=
  if data.length % L = 0 then
    if K ≤ data.length / L then Except.ok (prepare L K data p)
    else Except.error SetupError.sampleTooLarge
  else Except.error SetupError.reshapeMismatch

/-- `tf.data.Dataset.from_tensor_slices((xs, ys))`: slice two equally long
tensors along their first axis into a stream of pairs. -/
def from_tensor_slices (xs ys : List (List α)) : List (List α × List α) :=
  List.zip xs ys

/-- `dataset.repeat(1)`: repeat the finite stream once, i.e. leave it as is. -/
def datasetRepeatOnce (s : List β) : List β := s

/-- `dataset.batch(B)`: group consecutive elements into batches of `B`;
a final shorter batch is kept. -/
def npBatch (B : Nat) (xs : List β) : List (List β) :=
  (List.range ((xs.length + B - 1) / B)).map (fun w => (xs.drop (w * B)).take B)

/-- `eval_dataset()` of the notebook: slice `(evaldata, evallabels)`,
repeat once, and batch with `B = EVAL_SEQUENCES` (one batch with
everything). -/
def eval_dataset (K : Nat) (ev evl : List (List α)) :
    List (List (List α × List α)) :=
  npBatch K (datasetRepeatOnce (from_tensor_slices ev evl))

/-- Modelled from the spec: `utils_datagen.Waveforms` (the module is imported
by the notebook but is not among the sources here) is a fixed finite table of
waveform kinds: sine, sine with variable frequency, and sine with variable
amplitude plus noise. -/
inductive Waveform where
  | sine : Waveform
  | sineVarFreq : Waveform
  | sineVarAmplNoise : Waveform
deriving DecidableEq

/-- Modelled from the spec: a 16-sample integer approximation of one period
of a sine wave, standing in for the floating-point samples (the claims about
the generator concern only lengths and determinism, not sample values). -/
def sineTable : List Int := [0, 4, 7, 9, 10, 9, 7, 4, 0, -4, -7, -9, -10, -9, -7, -4]

/-- Modelled from the spec: an explicit pseudo-random generator with a
settable seed (a 64-bit linear congruential step), standing in for NumPy's
seeded global generator. -/
def lcgNext (s : Nat) : Nat :=
  (6364136223846793005 * s + 1442695040888963407) % (2 ^ 64)

/-- Modelled from the spec: `utils_datagen.create_time_series(waveform, N)`
produces a sequence of exactly `N` samples exhibiting the kind's periodic
pattern, as a pure function of kind + length + random seed state. -/
def create_time_series (k : Waveform) (N seed : Nat) : List Int :=
  (List.range N).map (fun i =>
    match k with
    | Waveform.sine => sineTable.getD (i % 16) 0
    | Waveform.sineVarFreq => sineTable.getD ((i * (i / 64 + 1)) % 16) 0
    | Waveform.sineVarAmplNoise =>
        sineTable.getD (i % 16) 0 * ((i : Int) % 5 + 1)
          + (lcgNext (seed + i) : Int) % 3 - 1)

/-- Modelled from the spec: the table of waveform kinds iterated by the
corpus-building cell. -/
def Waveforms : List Waveform :=
  [Waveform.sine, Waveform.sineVarFreq, Waveform.sineVarAmplNoise]

/-- `data = np.concatenate([utils_datagen.create_time_series(waveform,
DATA_SEQ_LEN) for waveform in utils_datagen.Waveforms])`, generalized to an
arbitrary list of kinds. -/
def generateCorpus (kinds : List Waveform) (N seed : Nat) : List Int :=
  (kinds.map (fun k => create_time_series k N seed)).flatten

/-- Modelled from the spec: a seeded draw of `K` distinct values from a pool,
standing in for `np.random.choice(n, K, replace=False)` under a fixed global
seed. -/
def drawDistinct : Nat → Nat → List Nat → List Nat
  | 0, _, _ => []
  | k + 1, s, pool =>
      let s2 := lcgNext s
      let j := s2 % pool.length
      pool.getD j 0 :: drawDistinct k s2 (pool.eraseIdx j)

/-- Modelled from the spec: the seeded index draw over `0, ..., n-1`. -/
def npRandomChoiceSeeded (seed n K : Nat) : List Nat :=
  drawDistinct K seed (List.range n)

/-- The composition of waveform generation, windowing and evaluation
sampling as one function of configuration plus seed. -/
def fullPipeline (N L K seed : Nat) : List Int × Prepared Int :=
  let data := generateCorpus Waveforms N seed
  let sel := npRandomChoiceSeeded (lcgNext seed) (data.length / L) K
  (data, prepare L K data sel)

/-- The concrete eight-sample sequence used by the spec's worked example. -/
def sample8 : List Int := [0, 1, 2, 3, 4, 5, 6, 7]

/-- A concrete permutation of `0, 1` (the window indices of `sample8` with
`L = 4`), standing in for one outcome of the evaluation draw. -/
def perm2 : List Nat := [1, 0]

/-! ### Helper lemmas about `npRoll1`, `npReshape` and selection -/

lemma npRoll1_length (xs : List α) : (npRoll1 xs).length = xs.length := by
  simp [npRoll1]
  omega

lemma npReshape_getElem? (L : Nat) (xs : List α) (w : Nat) (hw : w < xs.length / L) :
    (npReshape L xs)[w]? = some ((xs.drop (w * L)).take L) := by
  simp [npReshape, List.getElem?_map, List.getElem?_range hw]

lemma npReshape_getD (L : Nat) (xs : List α) (w : Nat) (hw : w < xs.length / L) :
    (npReshape L xs).getD w [] = (xs.drop (w * L)).take L := by
  rw [List.getD_eq_getElem?_getD, npReshape_getElem? L xs w hw]
  rfl

lemma npReshape_length (L : Nat) (xs : List α) :
    (npReshape L xs).length = xs.length / L := by
  simp [npReshape]

/-- Element `i` of window `w` of `np.reshape(xs, [-1, L])` is element
`w * L + i` of the flat sequence. -/
lemma windowElem_npReshape (L : Nat) (xs : List α) (w i : Nat) (d : α)
    (hi : i < L) (hw : w < xs.length / L) :
    windowElem (npReshape L xs) w i d = xs.getD (w * L + i) d := by
  rw [windowElem, npReshape_getD L xs w hw]
  rw [List.getD_eq_getElem?_getD, List.getD_eq_getElem?_getD]
  rw [List.getElem?_take, if_pos hi, List.getElem?_drop]

lemma lt_div_of_windowIdx (L M w i : Nat) (hdvd : L ∣ M) (hi : i < L)
    (hwi : w * L + i < M) : w < M / L := by
  rcases hdvd with ⟨n, rfl⟩
  rw [Nat.mul_div_cancel_left n (by omega : 0 < L)]
  by_contra hle
  push_neg at hle
  have : L * n ≤ w * L := by
    calc L * n ≤ L * w := Nat.mul_le_mul_left L hle
    _ = w * L := Nat.mul_comm L w
  omega

/-- Interior of the rotated sequence: `np.roll(xs, -1)[k] = xs[k+1]`. -/
lemma npRoll1_getD_of_lt (xs : List α) (k : Nat) (d : α) (hk : k + 1 < xs.length) :
    (npRoll1 xs).getD k d = xs.getD (k + 1) d := by
  rw [npRoll1, List.getD_eq_getElem?_getD, List.getD_eq_getElem?_getD]
  rw [List.getElem?_append]
  have h1 : k < (xs.drop 1).length := by simp; omega
  rw [if_pos h1, List.getElem?_drop, Nat.add_comm]

/-- Wraparound of the rotated sequence: its last element is `xs[0]`. -/
lemma npRoll1_getD_last (xs : List α) (d : α) (hne : xs ≠ []) :
    (npRoll1 xs).getD (xs.length - 1) d = xs.getD 0 d := by
  have hlen : 0 < xs.length := List.length_pos.mpr hne
  rw [npRoll1, List.getD_eq_getElem?_getD, List.getD_eq_getElem?_getD]
  rw [List.getElem?_append]
  have h1 : ¬ (xs.length - 1 < (xs.drop 1).length) := by simp
  rw [if_neg h1]
  have h2 : xs.length - 1 - (xs.drop 1).length = 0 := by simp
  rw [h2]
  rcases xs with _ | ⟨x, rest⟩
  · simp at hne
  · simp

lemma flatten_reshapeN (L : Nat) :
    ∀ (n : Nat) (xs : List α),
      ((List.range n).map (fun w => (xs.drop (w * L)).take L)).flatten = xs.take (n * L) := by
  intro n
  induction n with
  | zero => intro xs; simp
  | succ n ih =>
    intro xs
    rw [List.range_succ_eq_map]
    simp only [List.map_cons, List.map_map, List.flatten_cons]
    have hcomp : ((fun w => (xs.drop (w * L)).take L) ∘ Nat.succ)
        = fun w => ((xs.drop L).drop (w * L)).take L := by
      funext w
      simp only [Function.comp]
      rw [List.drop_drop]
      have he : L + w * L = Nat.succ w * L := by rw [Nat.succ_mul]; omega
      rw [he]
    rw [hcomp, ih (xs.drop L)]
    rw [Nat.succ_mul, Nat.add_comm (n * L) L, List.take_add]
    simp

/-- Concatenating the windows of `np.reshape(xs, [-1, L])` recovers the
flat sequence whenever `L` divides its length. -/
lemma flatten_npReshape (L : Nat) (xs : List α) (hdvd : L ∣ xs.length) :
    (npReshape L xs).flatten = xs := by
  rw [npReshape, flatten_reshapeN]
  rw [Nat.div_mul_cancel hdvd]
  exact List.take_length xs

lemma getD_mem_of_lt (l : List α) (i : Nat) (d : α) (h : i < l.length) :
    l.getD i d ∈ l := by
  rw [List.getD_eq_getElem?_getD, List.getElem?_eq_getElem h]
  exact List.getElem_mem h

/-- Interior of a window: label element `i` is input element `i + 1` of the
same window (the rotated sequence shifted by one). -/
lemma labeldata_interior_shift (L : Nat) (data : List α) (d : α) (w i : Nat)
    (hdvd : L ∣ data.length) (hw : w < data.length / L) (hi : i + 1 < L) :
    windowElem (labeldata L data) w i d = windowElem (traindata L data) w (i + 1) d := by
  have hL : 0 < L := by omega
  have hM : data.length / L * L = data.length := Nat.div_mul_cancel hdvd
  have hwL : (w + 1) * L ≤ data.length / L * L :=
    Nat.mul_le_mul_right L (by omega : w + 1 ≤ data.length / L)
  have hexp : (w + 1) * L = w * L + L := Nat.succ_mul w L
  have hidx : w * L + i + 1 < data.length := by omega
  rw [labeldata, traindata]
  rw [windowElem_npReshape L (npRoll1 data) w i d (by omega)
    (by rw [npRoll1_length]; exact hw)]
  rw [windowElem_npReshape L data w (i + 1) d hi hw]
  rw [npRoll1_getD_of_lt data (w * L + i) d hidx]
  rw [← Nat.add_assoc]

/-- Window boundary: the last label element of window `w` is the first input
element of window `w + 1`. -/
lemma labeldata_boundary_shift (L : Nat) (data : List α) (d : α) (w : Nat)
    (hL : 0 < L) (hdvd : L ∣ data.length) (hw : w + 1 < data.length / L) :
    windowElem (labeldata L data) w (L - 1) d
      = windowElem (traindata L data) (w + 1) 0 d := by
  have hM : data.length / L * L = data.length := Nat.div_mul_cancel hdvd
  have hA : (w + 2) * L = w * L + L + L := by
    rw [Nat.succ_mul, Nat.succ_mul]
  have hB : (w + 1) * L = w * L + L := Nat.succ_mul w L
  have hle : (w + 2) * L ≤ data.length / L * L :=
    Nat.mul_le_mul_right L (by omega : w + 2 ≤ data.length / L)
  have hidx : w * L + (L - 1) + 1 < data.length := by omega
  rw [labeldata, traindata]
  rw [windowElem_npReshape L (npRoll1 data) w (L - 1) d (by omega)
    (by rw [npRoll1_length]; omega)]
  rw [windowElem_npReshape L data (w + 1) 0 d hL (by omega)]
  rw [npRoll1_getD_of_lt data (w * L + (L - 1)) d hidx]
  have hab : w * L + (L - 1) + 1 = (w + 1) * L + 0 := by omega
  rw [hab]

/-- Dataset boundary: the last label element of the final window wraps
around to the first element of the whole sequence. -/
lemma labeldata_wraparound (L : Nat) (data : List α) (d : α)
    (hL : 0 < L) (hdvd : L ∣ data.length) (hne : data ≠ []) :
    windowElem (labeldata L data) (data.length / L - 1) (L - 1) d
      = data.getD 0 d := by
  have hpos : 0 < data.length := List.length_pos.mpr hne
  have hnW : 0 < data.length / L := Nat.div_pos (Nat.le_of_dvd hpos hdvd) hL
  have hM : data.length / L * L = data.length := Nat.div_mul_cancel hdvd
  have hC : (data.length / L - 1) * L + L = data.length / L * L := by
    have h1 : data.length / L - 1 + 1 = data.length / L := by omega
    rw [← Nat.succ_mul, Nat.succ_eq_add_one, h1]
  rw [labeldata]
  rw [windowElem_npReshape L (npRoll1 data) (data.length / L - 1) (L - 1) d (by omega)
    (by rw [npRoll1_length]; omega)]
  have hab : (data.length / L - 1) * L + (L - 1) = data.length - 1 := by omega
  rw [hab]
  exact npRoll1_getD_last data d hne

lemma getD_map (f : α → β) (l : List α) (j : Nat) (d : β) (d0 : α) (hj : j < l.length) :
    (l.map f).getD j d = f (l.getD j d0) := by
  rw [List.getD_eq_getElem?_getD, List.getElem?_map, List.getD_eq_getElem?_getD,
    List.getElem?_eq_getElem hj]
  rfl

lemma getD_zip (l1 : List α) (l2 : List β) (w : Nat) (d1 : α) (d2 : β)
    (h1 : w < l1.length) (h2 : w < l2.length) :
    (List.zip l1 l2).getD w (d1, d2) = (l1.getD w d1, l2.getD w d2) := by
  have hw : w < (List.zip l1 l2).length := by rw [List.length_zip]; omega
  rw [List.getD_eq_getElem?_getD, List.getElem?_eq_getElem hw, List.getElem_zip]
  rw [List.getD_eq_getElem?_getD, List.getD_eq_getElem?_getD,
    List.getElem?_eq_getElem h1, List.getElem?_eq_getElem h2]
  rfl

lemma joined_data_length (L : Nat) (data : List α) :
    (joined_data L data).length = data.length / L := by
  rw [joined_data, List.length_zip, traindata, labeldata, npReshape_length,
    npReshape_length, npRoll1_length, Nat.min_self]

lemma joined_evaldata_length (L K : Nat) (data : List α) (p : List Nat)
    (hlenp : (joined_data L data).length ≤ p.length)
    (hK : K ≤ (joined_data L data).length) :
    (joined_evaldata L K data p).length = K := by
  rw [joined_evaldata, npSelect, List.length_map, npChoice, List.length_take]
  omega

/-- A batch size equal to the stream length yields the whole stream as the
single batch. -/
lemma npBatch_all (B : Nat) (xs : List β) (hB : 0 < B) (hlen : xs.length = B) :
    npBatch B xs = [xs] := by
  have hdiv : (xs.length + B - 1) / B = 1 := by
    rw [hlen]
    have h1 : B + B - 1 = (B - 1) + B := by omega
    rw [h1, Nat.add_div_right _ hB, Nat.div_eq_of_lt (by omega)]
  rw [npBatch, hdiv]
  have hr : List.range 1 = [0] := rfl
  rw [hr, List.map_cons, List.map_nil, Nat.zero_mul, List.drop_zero,
    List.take_of_length_le (le_of_eq hlen)]

/-- Under divisibility every window of `np.reshape(xs, [-1, L])` has
length exactly `L`. -/
lemma length_mem_npReshape (L : Nat) (xs : List α) (w : List α)
    (hdvd : L ∣ xs.length) (hw : w ∈ npReshape L xs) : w.length = L := by
  rw [npReshape] at hw
  obtain ⟨i, hi, rfl⟩ := List.mem_map.mp hw
  rw [List.mem_range] at hi
  rw [List.length_take, List.length_drop]
  have hM : xs.length / L * L = xs.length := Nat.div_mul_cancel hdvd
  have hle : (i + 1) * L ≤ xs.length / L * L := Nat.mul_le_mul_right L (by omega)
  have hexp : (i + 1) * L = i * L + L := Nat.succ_mul i L
  omega

/-- Every sampled evaluation pair is one of the joined training pairs. -/
lemma mem_joined_data_of_mem_evald (L K : Nat) (data : List α) (p : List Nat)
    (hperm : p.Perm (List.range ((joined_data L data).length)))
    (q : List α × List α) (hq : q ∈ joined_evaldata L K data p) :
    q ∈ joined_data L data := by
  simp only [joined_evaldata, npSelect, npChoice, List.mem_map] at hq
  obtain ⟨i, hi, rfl⟩ := hq
  have hin : i < (joined_data L data).length :=
    List.mem_range.mp (hperm.mem_iff.mp (List.mem_of_mem_take hi))
  exact getD_mem_of_lt _ i _ hin

lemma mem_of_mem_npReshape (L : Nat) (xs : List α) (w : List α) (x : α)
    (hw : w ∈ npReshape L xs) (hx : x ∈ w) : x ∈ xs := by
  rw [npReshape] at hw
  obtain ⟨i, hi, rfl⟩ := List.mem_map.mp hw
  exact List.drop_subset _ xs (List.take_subset _ _ hx)

lemma mem_of_mem_npRoll1 (xs : List α) (x : α) (hx : x ∈ npRoll1 xs) : x ∈ xs := by
  rw [npRoll1] at hx
  rcases List.mem_append.mp hx with h | h
  · exact List.drop_subset _ xs h
  · exact List.take_subset _ xs h

/-! ### Claim theorems -/

/-- C1: for every source sequence whose length is divisible by the window
length `L`, the windowing transform (rotate the sequence left by one, then
reshape both the original and the rotated sequence into windows of length
`L`) yields labels such that every interior label element equals the next
input element of the same window, the last label element of window `w`
equals the first input element of window `w + 1`, and the last label element
of the final window wraps around to the first element of the whole sequence;
in particular, for `[0,1,2,3,4,5,6,7]` with `L = 4` the input windows are
`[[0,1,2,3],[4,5,6,7]]` and the label windows are `[[1,2,3,4],[5,6,7,0]]`. -/
theorem C1_label_shift_invariant (L : Nat) (data : List α) (d : α)
    (hL : 0 < L) (hdvd : L ∣ data.length) (hne : data ≠ []) :
    (∀ w i, w < data.length / L → i + 1 < L →
        windowElem (labeldata L data) w i d = windowElem (traindata L data) w (i + 1) d)
    ∧ (∀ w, w + 1 < data.length / L →
        windowElem (labeldata L data) w (L - 1) d
          = windowElem (traindata L data) (w + 1) 0 d)
    ∧ windowElem (labeldata L data) (data.length / L - 1) (L - 1) d = data.getD 0 d
    ∧ traindata 4 sample8 = [[0, 1, 2, 3], [4, 5, 6, 7]]
    ∧ labeldata 4 sample8 = [[1, 2, 3, 4], [5, 6, 7, 0]] := by
  refine ⟨fun w i hw hi => labeldata_interior_shift L data d w i hdvd hw hi,
    fun w hw => labeldata_boundary_shift L data d w hL hdvd hw,
    labeldata_wraparound L data d hL hdvd hne, by decide, by decide⟩

/-- Witness for C1: the hypotheses hold for `sample8` with `L = 4`, and the
shift invariant follows there by applying the theorem. -/
theorem C1_label_shift_invariant_witness :
    (0 < 4 ∧ (4 : Nat) ∣ sample8.length ∧ sample8 ≠ []) ∧
    ((∀ w i, w < sample8.length / 4 → i + 1 < 4 →
        windowElem (labeldata 4 sample8) w i 0 = windowElem (traindata 4 sample8) w (i + 1) 0)
    ∧ (∀ w, w + 1 < sample8.length / 4 →
        windowElem (labeldata 4 sample8) w (4 - 1) 0
          = windowElem (traindata 4 sample8) (w + 1) 0 0)
    ∧ windowElem (labeldata 4 sample8) (sample8.length / 4 - 1) (4 - 1) 0 = sample8.getD 0 0
    ∧ traindata 4 sample8 = [[0, 1, 2, 3], [4, 5, 6, 7]]
    ∧ labeldata 4 sample8 = [[1, 2, 3, 4], [5, 6, 7, 0]]) :=
  ⟨⟨by decide, by decide, by decide⟩,
    C1_label_shift_invariant 4 sample8 0 (by decide) (by decide) (by decide)⟩

/-- C2: concatenating the input windows produced by the windowing transform,
in order, yields exactly the original source sequence (round-trip identity
of the reshape, before any rotation is applied). -/
theorem C2_reshape_roundtrip (L : Nat) (data : List α) (hdvd : L ∣ data.length) :
    (traindata L data).flatten = data :=
  flatten_npReshape L data hdvd

/-- Witness for C2: the divisibility hypothesis holds for `sample8` with
`L = 4`, and the round trip follows there by applying the theorem. -/
theorem C2_reshape_roundtrip_witness :
    (4 : Nat) ∣ sample8.length ∧ (traindata 4 sample8).flatten = sample8 :=
  ⟨by decide, C2_reshape_roundtrip 4 sample8 (by decide)⟩

/-- C3: when the randomness of `np.random.choice(n, K, replace=False)` is
exposed as a permutation `p` of the window indices `0, ..., n-1` (of which
the draw is the first `K` entries), a configured evaluation sample count `K`
not exceeding the number of available windows yields an evaluation subset of
exactly `K` windows, with no window index drawn twice and every drawn index
a valid window index. -/
theorem C3_eval_sampling_without_replacement (L K : Nat) (data : List α) (p : List Nat)
    (hperm : p.Perm (List.range ((joined_data L data).length)))
    (hK : K ≤ (joined_data L data).length) :
    (joined_evaldata L K data p).length = K
    ∧ (npChoice p K).length = K
    ∧ (npChoice p K).Nodup
    ∧ ∀ i ∈ npChoice p K, i < (joined_data L data).length := by
  have hlen : p.length = (joined_data L data).length := by
    have h := hperm.length_eq
    simpa using h
  have htake : (npChoice p K).length = K := by
    rw [npChoice, List.length_take]
    omega
  have hnd : p.Nodup := hperm.nodup_iff.mpr (List.nodup_range _)
  refine ⟨?_, htake, hnd.sublist (List.take_sublist K p), ?_⟩
  · rw [joined_evaldata, npSelect, List.length_map, htake]
  · intro i hi
    exact List.mem_range.mp (hperm.mem_iff.mp (List.mem_of_mem_take hi))

/-- Witness for C3: a concrete draw over the two windows of `sample8`. -/
theorem C3_eval_sampling_without_replacement_witness :
    (perm2.Perm (List.range ((joined_data 4 sample8).length))
      ∧ 1 ≤ (joined_data 4 sample8).length) ∧
    ((joined_evaldata 4 1 sample8 perm2).length = 1
    ∧ (npChoice perm2 1).length = 1
    ∧ (npChoice perm2 1).Nodup
    ∧ ∀ i ∈ npChoice perm2 1, i < (joined_data 4 sample8).length) :=
  ⟨⟨by decide, by decide⟩,
    C3_eval_sampling_without_replacement 4 1 sample8 perm2 (by decide) (by decide)⟩

/-- C4: sampling the evaluation subset does not modify the training pool:
the prepared training input and label windows are exactly the full window
lists of the source sequence (all `M / L` of them), and every sampled
evaluation pair is itself one of the training (input, label) pairs. -/
theorem C4_training_pool_unchanged (L K : Nat) (data : List α) (p : List Nat)
    (hperm : p.Perm (List.range ((joined_data L data).length))) :
    (prepare L K data p).traind = traindata L data
    ∧ (prepare L K data p).labeld = labeldata L data
    ∧ (prepare L K data p).traind.length = data.length / L
    ∧ ∀ q ∈ (prepare L K data p).evald, q ∈ joined_data L data := by
  refine ⟨rfl, rfl, npReshape_length L data, ?_⟩
  intro q hq
  exact mem_joined_data_of_mem_evald L K data p hperm q hq

/-- Witness for C4: the concrete draw over `sample8` leaves the training
pool untouched and selects existing training pairs. -/
theorem C4_training_pool_unchanged_witness :
    perm2.Perm (List.range ((joined_data 4 sample8).length)) ∧
    ((prepare 4 1 sample8 perm2).traind = traindata 4 sample8
    ∧ (prepare 4 1 sample8 perm2).labeld = labeldata 4 sample8
    ∧ (prepare 4 1 sample8 perm2).traind.length = sample8.length / 4
    ∧ ∀ q ∈ (prepare 4 1 sample8 perm2).evald, q ∈ joined_data 4 sample8) :=
  ⟨by decide, C4_training_pool_unchanged 4 1 sample8 perm2 (by decide)⟩

/-- C5: the windowing/batching transform fabricates no values: every element
of every training input window, of every training label window, and of both
components of every sampled evaluation pair is an element of the original
source sequence. -/
theorem C5_no_fabricated_values (L K : Nat) (data : List α) (p : List Nat) :
    (∀ w ∈ traindata L data, ∀ x ∈ w, x ∈ data)
    ∧ (∀ w ∈ labeldata L data, ∀ x ∈ w, x ∈ data)
    ∧ (∀ q ∈ joined_evaldata L K data p,
        (∀ x ∈ q.1, x ∈ data) ∧ (∀ x ∈ q.2, x ∈ data)) := by
  have htrain : ∀ w ∈ traindata L data, ∀ x ∈ w, x ∈ data := by
    intro w hw x hx
    exact mem_of_mem_npReshape L data w x hw hx
  have hlabel : ∀ w ∈ labeldata L data, ∀ x ∈ w, x ∈ data := by
    intro w hw x hx
    exact mem_of_mem_npRoll1 data x (mem_of_mem_npReshape L (npRoll1 data) w x hw hx)
  refine ⟨htrain, hlabel, ?_⟩
  intro q hq
  simp only [joined_evaldata, npSelect, npChoice, List.mem_map] at hq
  obtain ⟨i, hi, rfl⟩ := hq
  by_cases hlt : i < (joined_data L data).length
  · have hmem : (joined_data L data).getD i ([], []) ∈ joined_data L data :=
      getD_mem_of_lt _ i _ hlt
    rcases hpair : (joined_data L data).getD i ([], []) with ⟨a, b⟩
    rw [hpair] at hmem
    have hab := List.of_mem_zip hmem
    exact ⟨fun x hx => htrain a hab.1 x hx, fun x hx => hlabel b hab.2 x hx⟩
  · rw [List.getD_eq_default _ _ (by omega)]
    exact ⟨fun x hx => absurd hx (List.not_mem_nil x), fun x hx => absurd hx (List.not_mem_nil x)⟩

/-- C6: for a positive window length the setup phase has exactly two failure
modes, both surfaced immediately: the reshape rejects a sequence length not
divisible by `L`, and the evaluation draw rejects a sample count `K`
exceeding the number of windows; under the complementary preconditions the
setup succeeds. -/
theorem C6_two_failure_modes (L K : Nat) (data : List α) (p : List Nat) (hL : 0 < L) :
    (prepareChecked L K data p = Except.error SetupError.reshapeMismatch
      ↔ ¬ L ∣ data.length)
    ∧ (prepareChecked L K data p = Except.error SetupError.sampleTooLarge
      ↔ L ∣ data.length ∧ data.length / L < K)
    ∧ ((∃ r, prepareChecked L K data p = Except.ok r)
      ↔ L ∣ data.length ∧ K ≤ data.length / L) := by
  have hdvd : L ∣ data.length ↔ data.length % L = 0 := Nat.dvd_iff_mod_eq_zero
  by_cases h1 : data.length % L = 0 <;> by_cases h2 : K ≤ data.length / L <;>
    simp [prepareChecked, h1, h2, hdvd] <;> omega

/-- Witness for C6: at `L = 4`, `K = 1` on `sample8` both preconditions hold
and setup succeeds. -/
theorem C6_two_failure_modes_witness :
    0 < 4 ∧
    ((prepareChecked 4 1 sample8 perm2 = Except.error SetupError.reshapeMismatch
      ↔ ¬ (4 : Nat) ∣ sample8.length)
    ∧ (prepareChecked 4 1 sample8 perm2 = Except.error SetupError.sampleTooLarge
      ↔ (4 : Nat) ∣ sample8.length ∧ sample8.length / 4 < 1)
    ∧ ((∃ r, prepareChecked 4 1 sample8 perm2 = Except.ok r)
      ↔ (4 : Nat) ∣ sample8.length ∧ 1 ≤ sample8.length / 4)) :=
  ⟨by decide, C6_two_failure_modes 4 1 sample8 perm2 (by decide)⟩

/-- C7: the composition of waveform generation, windowing and evaluation
sampling is a deterministic function of configuration plus seed: two runs
with the same configuration and the same seed produce identical corpora,
identical window sets and identical evaluation subsets. -/
theorem C7_pipeline_deterministic (N L K s1 s2 : Nat) (h : s1 = s2) :
    fullPipeline N L K s1 = fullPipeline N L K s2 := by
  rw [h]

/-- Witness for C7: two runs with seed 2026 coincide. -/
theorem C7_pipeline_deterministic_witness :
    fullPipeline 8 4 1 2026 = fullPipeline 8 4 1 2026 :=
  C7_pipeline_deterministic 8 4 1 2026 2026 rfl

/-- C8: for every list of waveform kinds and every per-kind target length
`N`, the generated corpus (one sequence of length `N` per kind,
concatenated) has total length exactly `kinds.length * N`. -/
theorem C8_corpus_length (kinds : List Waveform) (N seed : Nat) :
    (generateCorpus kinds N seed).length = kinds.length * N := by
  induction kinds with
  | nil => simp [generateCorpus]
  | cons k ks ih =>
    rw [generateCorpus, List.map_cons, List.flatten_cons, List.length_append]
    rw [generateCorpus] at ih
    rw [ih]
    have hlen : (create_time_series k N seed).length = N := by
      rw [create_time_series, List.length_map, List.length_range]
    rw [hlen, List.length_cons, Nat.succ_mul]
    omega

/-- C9: one evaluation pass over the fixed evaluation subset produces
exactly one batch containing all `K` sampled (input, label) window pairs
(each of window length `L`, i.e. the batch has shape `[K, L]`), and after
that single batch the evaluation stream is exhausted. -/
theorem C9_single_eval_batch (L K : Nat) (data : List α) (p : List Nat)
    (hKpos : 0 < K) (hdvd : L ∣ data.length)
    (hperm : p.Perm (List.range ((joined_data L data).length)))
    (hK : K ≤ (joined_data L data).length) :
    eval_dataset K (evaldata L K data p) (evallabels L K data p)
      = [from_tensor_slices (evaldata L K data p) (evallabels L K data p)]
    ∧ (from_tensor_slices (evaldata L K data p) (evallabels L K data p)).length = K
    ∧ ∀ q ∈ from_tensor_slices (evaldata L K data p) (evallabels L K data p),
        q.1.length = L ∧ q.2.length = L := by
  have hlenp : p.length = (joined_data L data).length := by
    have h := hperm.length_eq
    simpa using h
  have hje : (joined_evaldata L K data p).length = K :=
    joined_evaldata_length L K data p (le_of_eq hlenp.symm) hK
  have hev : (evaldata L K data p).length = K := by
    rw [evaldata, List.length_map, hje]
  have hevl : (evallabels L K data p).length = K := by
    rw [evallabels, List.length_map, hje]
  have hzip : (from_tensor_slices (evaldata L K data p) (evallabels L K data p)).length = K := by
    rw [from_tensor_slices, List.length_zip, hev, hevl, Nat.min_self]
  have hjoin : from_tensor_slices (evaldata L K data p) (evallabels L K data p)
      = joined_evaldata L K data p := by
    rw [from_tensor_slices, evaldata, evallabels, List.zip_map']
    simp
  refine ⟨?_, hzip, ?_⟩
  · rw [eval_dataset, datasetRepeatOnce]
    exact npBatch_all K _ hKpos hzip
  · intro q hq
    rw [hjoin] at hq
    have hqj := mem_joined_data_of_mem_evald L K data p hperm q hq
    rcases q with ⟨a, b⟩
    have hab := List.of_mem_zip hqj
    exact ⟨length_mem_npReshape L data a hdvd hab.1,
      length_mem_npReshape L (npRoll1 data) b (by rw [npRoll1_length]; exact hdvd) hab.2⟩

/-- Witness for C9: the concrete draw of one window from `sample8` yields a
single terminal batch. -/
theorem C9_single_eval_batch_witness :
    (0 < 1 ∧ (4 : Nat) ∣ sample8.length
      ∧ perm2.Perm (List.range ((joined_data 4 sample8).length))
      ∧ 1 ≤ (joined_data 4 sample8).length) ∧
    (eval_dataset 1 (evaldata 4 1 sample8 perm2) (evallabels 4 1 sample8 perm2)
      = [from_tensor_slices (evaldata 4 1 sample8 perm2) (evallabels 4 1 sample8 perm2)]
    ∧ (from_tensor_slices (evaldata 4 1 sample8 perm2) (evallabels 4 1 sample8 perm2)).length
      = 1
    ∧ ∀ q ∈ from_tensor_slices (evaldata 4 1 sample8 perm2) (evallabels 4 1 sample8 perm2),
        q.1.length = 4 ∧ q.2.length = 4) :=
  ⟨⟨by decide, by decide, by decide, by decide⟩,
    C9_single_eval_batch 4 1 sample8 perm2 (by decide) (by decide) (by decide) (by decide)⟩

/-- C10: evaluation inputs and labels stay pairwise aligned through the
random sampling: the `j`-th evaluation input and label windows come from one
and the same window index `w`, and the interior shift invariant of the
training windows holds verbatim for the sampled pair. -/
theorem C10_eval_pairs_aligned (L K : Nat) (data : List α) (d : α) (p : List Nat) (j : Nat)
    (hdvd : L ∣ data.length)
    (hperm : p.Perm (List.range ((joined_data L data).length)))
    (hj : j < K) (hK : K ≤ (joined_data L data).length) :
    ∃ w, w < data.length / L
      ∧ (evaldata L K data p).getD j [] = (traindata L data).getD w []
      ∧ (evallabels L K data p).getD j [] = (labeldata L data).getD w []
      ∧ ∀ i, i + 1 < L →
          ((evallabels L K data p).getD j []).getD i d
            = ((evaldata L K data p).getD j []).getD (i + 1) d := by
  have hn : (joined_data L data).length = data.length / L := joined_data_length L data
  have hlenp : p.length = (joined_data L data).length := by
    have h := hperm.length_eq
    simpa using h
  have hsel : (npChoice p K).length = K := by
    rw [npChoice, List.length_take]
    omega
  have hwmem : (npChoice p K).getD j 0 ∈ npChoice p K :=
    getD_mem_of_lt _ j _ (by omega)
  have hwn : (npChoice p K).getD j 0 < (joined_data L data).length :=
    List.mem_range.mp (hperm.mem_iff.mp (List.mem_of_mem_take hwmem))
  have hje : (joined_evaldata L K data p).getD j ([], [])
      = (joined_data L data).getD ((npChoice p K).getD j 0) ([], []) := by
    rw [joined_evaldata, npSelect]
    exact getD_map _ _ j _ 0 (by omega)
  have htd : (npChoice p K).getD j 0 < (traindata L data).length := by
    rw [traindata, npReshape_length]
    omega
  have hld : (npChoice p K).getD j 0 < (labeldata L data).length := by
    rw [labeldata, npReshape_length, npRoll1_length]
    omega
  have hzip : (joined_data L data).getD ((npChoice p K).getD j 0) ([], [])
      = ((traindata L data).getD ((npChoice p K).getD j 0) [],
         (labeldata L data).getD ((npChoice p K).getD j 0) []) := by
    rw [joined_data]
    exact getD_zip (traindata L data) (labeldata L data) _ [] [] htd hld
  have hKj : j < (joined_evaldata L K data p).length := by
    rw [joined_evaldata, npSelect, List.length_map, hsel]
    omega
  have hfst : (evaldata L K data p).getD j []
      = (traindata L data).getD ((npChoice p K).getD j 0) [] := by
    rw [evaldata, getD_map Prod.fst _ j [] ([], []) hKj, hje, hzip]
  have hsnd : (evallabels L K data p).getD j []
      = (labeldata L data).getD ((npChoice p K).getD j 0) [] := by
    rw [evallabels, getD_map Prod.snd _ j [] ([], []) hKj, hje, hzip]
  refine ⟨(npChoice p K).getD j 0, by omega, hfst, hsnd, ?_⟩
  intro i hi
  rw [hfst, hsnd]
  exact labeldata_interior_shift L data d ((npChoice p K).getD j 0) i hdvd (by omega) hi

/-- Witness for C10: the concrete draw of one window from `sample8` is an
aligned (input, label) pair. -/
theorem C10_eval_pairs_aligned_witness :
    ((4 : Nat) ∣ sample8.length
      ∧ perm2.Perm (List.range ((joined_data 4 sample8).length))
      ∧ 0 < 1 ∧ 1 ≤ (joined_data 4 sample8).length) ∧
    (∃ w, w < sample8.length / 4
      ∧ (evaldata 4 1 sample8 perm2).getD 0 [] = (traindata 4 sample8).getD w []
      ∧ (evallabels 4 1 sample8 perm2).getD 0 [] = (labeldata 4 sample8).getD w []
      ∧ ∀ i, i + 1 < 4 →
          ((evallabels 4 1 sample8 perm2).getD 0 []).getD i 0
            = ((evaldata 4 1 sample8 perm2).getD 0 []).getD (i + 1) 0) :=
  ⟨⟨by decide, by decide, by decide, by decide⟩,
    C10_eval_pairs_aligned 4 1 sample8 0 perm2 0 (by decide) (by decide)
      (by decide) (by decide)⟩

end RNNTutorial
